import Mathlib

/-!
Verification of the API-reference documentation generator.

The renderer (`src/tensorflow/tools/docs/pretty_docs.py`) is embedded
directly from its source. The docstring structurer, effective-signature
(ArgSpec) resolver and reference resolver live in `parser.py`, which is not
among the repository files given (only its test file is); those components
are modelled from the specification, as marked on each definition.

Definitions come first, theorems afterwards.
-/

/-- Lines and free text are modelled at the character level: a string is a
list of characters, a docstring is a list of lines (each line given without
its terminating newline). -/
abbrev Str := List Char

/-- Joining a list of lines back into the text they came from: every line
contributes its characters followed by a newline. -/
def joinLines (ls : List Str) : Str :=
  (ls.map (fun l => l ++ ['\n'])).flatten

/-- Characters allowed in the name of an itemized "name: description" entry
of a detail section (word characters, dots and stars). -/
def isNameChar (c : Char) : Bool :=
  c.isAlphanum || c = '_' || c = '.' || c = '*'

/-- Modelled from the spec (the docstring structurer of `parser.py` is not
among the given files): a detail-section header is a line consisting solely
of a capitalized keyword followed by a colon; this returns that keyword. -/
def headerKeyword? (l : Str) : Option Str :=
  match l.takeWhile Char.isAlpha, l.dropWhile Char.isAlpha with
  | c :: tl, [':'] => if c.isUpper then some (c :: tl) else none
  | _, _ => none

/-- Modelled from the spec: an item of a detail section begins with an
indented "name: description" line (two spaces of indentation, then the
item's name, then a colon; the rest of the line starts the description). -/
def parseItemLine (l : Str) : Option (Str × Str) :=
  match l with
  | c1 :: c2 :: rest =>
    if c1 = ' ' ∧ c2 = ' ' then
      match rest.takeWhile isNameChar, rest.dropWhile isNameChar with
      | c :: tl, ':' :: r => some (c :: tl, r)
      | _, _ => none
    else none
  | _ => none

/-- One keyword-headed detail section extracted from a docstring: the
keyword, the free header text that follows the keyword line before the
first item, and the ordered "name: description" items. -/
structure ParsedDetail where
  keyword : Str
  header : Str
  items : List (Str × Str)
deriving DecidableEq, Repr

/-- Serialized form of one item: the two-space indent, the name, the colon
and the description (the description keeps its own line terminators). -/
def itemBlock (p : Str × Str) : Str :=
  ' ' :: ' ' :: (p.1 ++ ':' :: p.2)

/-- Serialized form of an item list. -/
def itemsJoin (items : List (Str × Str)) : Str :=
  (items.map itemBlock).flatten

/-- Modelled from the spec: the serialized form of one detail section, the
form whose concatenation after the remainder text must reproduce the
original docstring (round-trip law). -/
def detailStr (d : ParsedDetail) : Str :=
  d.keyword ++ ':' :: '\n' :: (d.header ++ itemsJoin d.items)

/-- Serialized form of a detail list, in original order. -/
def detailsJoin (ds : List ParsedDetail) : Str :=
  (ds.map detailStr).flatten

/-- Parser state inside a detail section once the first item line has been
seen: the finished items, and the current item's name and growing
description. -/
structure ItemsPart where
  done : List (Str × Str)
  name : Str
  desc : Str
deriving DecidableEq, Repr

/-- Parser state for the detail section currently being collected. -/
structure CurSection where
  kw : Str
  hd : Str
  itemsPart : Option ItemsPart
deriving DecidableEq, Repr

/-- Whole parser state of the docstring structurer's line state machine:
the remainder text collected so far, the finished detail sections, and the
section being collected (none before the first keyword header). -/
structure PSt where
  rem : Str
  done : List ParsedDetail
  cur : Option CurSection
deriving DecidableEq, Repr

/-- Closing the current section turns its collected pieces into a
`ParsedDetail` (the pending item, if any, is appended last). -/
def closeSection (cs : CurSection) : ParsedDetail :=
  ⟨cs.kw, cs.hd, cs.itemsPart.elim [] (fun ip => ip.done ++ [(ip.name, ip.desc)])⟩

/-- Modelled from the spec: one step of the line-by-line state machine of
the docstring structurer. A keyword-header line closes the current section
and opens a new one; before any header, lines accumulate into the
remainder; inside a section, an item line starts a new item and any other
line extends the header text (before the first item) or the current item's
description. -/
def pfdStep (st : PSt) (l : Str) : PSt :=
  match headerKeyword? l with
  | some kw => ⟨st.rem, st.done ++ st.cur.elim [] (fun cs => [closeSection cs]), some ⟨kw, [], none⟩⟩
  | none =>
    match st.cur with
    | none => ⟨st.rem ++ l ++ ['\n'], st.done, none⟩
    | some cs =>
      match parseItemLine l with
      | some (n, r) =>
        ⟨st.rem, st.done,
          some ⟨cs.kw, cs.hd,
            some ⟨cs.itemsPart.elim [] (fun ip => ip.done ++ [(ip.name, ip.desc)]), n, r ++ ['\n']⟩⟩⟩
      | none =>
        match cs.itemsPart with
        | none => ⟨st.rem, st.done, some ⟨cs.kw, cs.hd ++ l ++ ['\n'], none⟩⟩
        | some ip => ⟨st.rem, st.done, some ⟨cs.kw, cs.hd, some ⟨ip.done, ip.name, ip.desc ++ l ++ ['\n']⟩⟩⟩

/-- Final state of the machine: the remainder text and all detail sections,
the section still open being closed last. -/
def pfdFinalize (st : PSt) : Str × List ParsedDetail :=
  (st.rem, st.done ++ st.cur.elim [] (fun cs => [closeSection cs]))

/-- Modelled from the spec: `_parse_function_details` of the docstring
structurer, splitting a docstring (given as its list of lines) into the
remainder text and the keyword-headed detail sections. -/
def parse_function_details (lines : List Str) : Str × List ParsedDetail :=
  pfdFinalize (lines.foldl pfdStep ⟨[], [], none⟩)

/-- Serialized contribution of the section currently being collected. -/
def curJoin (cs : CurSection) : Str :=
  cs.kw ++ ':' :: '\n' :: (cs.hd ++ cs.itemsPart.elim [] (fun ip => itemsJoin ip.done ++ itemBlock (ip.name, ip.desc)))

/-- Serialized contribution of a whole parser state: remainder, finished
sections, open section. -/
def stateJoin (st : PSt) : Str :=
  st.rem ++ detailsJoin st.done ++ st.cur.elim [] curJoin

/-- The seed fixture of the test-suite: the docstring of a rectified-linear
operation with an "Args:" and a "Returns:" section, as its list of lines. -/
def reluDocLines : List Str :=
  ["Computes rectified linear: `max(features, 0)`".data,
   "".data,
   "Args:".data,
   "  features: A `Tensor`. Must be one of the following types: `float32`,".data,
   "    `float64`, `int32`, `int64`, `uint8`, `int16`, `int8`, `uint16`,".data,
   "    `half`.".data,
   "  name: A name for the operation (optional)".data,
   "".data,
   "Returns:".data,
   "  A `Tensor`. Has the same type as `features`".data]

/-- Effective signature of a (possibly partially bound) callable: the
remaining parameter names, the variadic names, and the default values
aligned to the tail of the name list. Default values are modelled as
natural numbers (the fixtures bind small integers). -/
structure ArgSpec where
  args : List String
  varargs : Option String
  varkw : Option String
  defaults : List Nat
deriving DecidableEq, Repr

/-- Modelled from the spec (the ArgSpec resolver `_get_arg_spec` of
`parser.py` is not among the given files): positional bindings consume
parameter names from the front, and any default whose parameter was
consumed is removed so the defaults stay aligned to the tail of the
remaining names. -/
def applyPositional (s : ArgSpec) (k : Nat) : ArgSpec :=
  { s with
    args := s.args.drop k,
    defaults := s.defaults.drop (k - (s.args.length - s.defaults.length)) }

/-- Modelled from the spec: a keyword binding removes the named parameter
wherever it occurs in the remaining list, together with its corresponding
default value if it had one. -/
def applyKeyword (s : ArgSpec) (name : String) : ArgSpec :=
  match s.args.findIdx? (fun a => a == name) with
  | none => s
  | some i =>
    let nd := s.args.length - s.defaults.length
    { s with
      args := s.args.eraseIdx i,
      defaults := if nd ≤ i then s.defaults.eraseIdx (i - nd) else s.defaults }

/-- Modelled from the spec: the effective signature after a partial
binding record of `posCount` positional values and the named keyword
bindings, positional bindings applied first. -/
def get_arg_spec (s : ArgSpec) (posCount : Nat) (kwNames : List String) : ArgSpec :=
  kwNames.foldl applyKeyword (applyPositional s posCount)

/-- Declared signature of the fixture callable
(arg1, arg2, kwarg1=1, kwarg2=2). -/
def partialBase : ArgSpec :=
  ⟨["arg1", "arg2", "kwarg1", "kwarg2"], none, none, [1, 2]⟩

/-- Splitting a character list on a separator character (the pieces, in
order, without the separator). -/
def splitOnCharFold (sep : Char) (cs : List Char) : List (List Char) :=
  cs.foldr
    (fun c acc =>
      if c = sep then [] :: acc
      else
        match acc with
        | [] => [[c]]
        | g :: gs => (c :: g) :: gs)
    [[]]

/-- Joining character-list pieces with a separator character. -/
def joinWithChar (sep : Char) : List (List Char) → List Char
  | [] => []
  | [g] => g
  | g :: g' :: gs => g ++ sep :: joinWithChar sep (g' :: gs)

/-- Modelled from the spec: `documentation_path` — the page for dotted
name a.b.C is written at path a/b/C.md. -/
def documentation_path (name : String) : String :=
  String.mk (joinWithChar '/' (splitOnCharFold '.' name.data)) ++ ".md"

/-- Modelled from the spec: resolution of one symbol reference token
@\x7b<ref>\x7d (the reference resolver of `parser.py` is not among the given
files). The name is canonicalized one hop through the duplicate map; if the
canonical name is indexed the token becomes a markdown link to its page
under the relative root, displaying the backtick-quoted original name; if
only the immediate parent is indexed, the link targets the parent's page
with a #<lastComponent> anchor; otherwise the reference is unresolved. -/
def one_ref (duplicate_of : List (String × String)) (index : List String)
    (ref : String) (relative_path : String) : Option String :=
  let canonical := (duplicate_of.lookup ref).getD ref
  if index.contains canonical then
    some ("[`" ++ ref ++ "`](" ++ relative_path ++ "/" ++ documentation_path canonical ++ ")")
  else
    let comps := splitOnCharFold '.' canonical.data
    if 2 ≤ comps.length then
      let parentName := String.mk (joinWithChar '.' comps.dropLast)
      let lastComp := String.mk (comps.getLastD [])
      if index.contains parentName then
        some ("[`" ++ ref ++ "`](" ++ relative_path ++ "/" ++ documentation_path parentName
          ++ "#" ++ lastComp ++ ")")
      else none
    else none

/-- Splitting a character list at the first occurrence of a separator:
the part before it, and (when the separator occurs) the part after it. -/
def splitFirstChar (sep : Char) : List Char → List Char × Option (List Char)
  | [] => ([], none)
  | c :: cs =>
    if c = sep then ([], some cs)
    else
      let r := splitFirstChar sep cs
      (c :: r.1, r.2)

/-- An entry of the document index: a document's title and url. -/
structure DocInfo where
  title : String
  url : String
deriving DecidableEq, Repr

/-- Modelled from the spec: the link target of a document reference — the
relative path prefix joined, os-path style with normalization, through two
parent levels with the document's url (the spec's fixtures map relative
root "python" and url "URL1" to "../URL1"). -/
def normpath_join (rel url : String) : String :=
  let comps := splitOnCharFold '/' rel.data ++ [['.', '.'], ['.', '.']] ++ splitOnCharFold '/' url.data
  let stack := comps.foldl
    (fun st comp =>
      if comp = ['.', '.'] then
        match st with
        | [] => comp :: st
        | top :: rest => if top = ['.', '.'] then comp :: st else rest
      else comp :: st)
    []
  String.mk (joinWithChar '/' stack.reverse)

/-- Modelled from the spec: resolution of one document reference token
@\x7b$<id>[#<anchor>][$<text>]\x7d. `inner` is the token's text after the
leading dollar sign. The id is looked up in the document index; the
rendered text is the custom text if given, else the document's title; the
link target is the joined relative path and url plus the optional anchor. -/
def resolve_doc_ref (doc_index : List (String × DocInfo)) (inner rel : String) :
    Option String :=
  let sp := splitFirstChar '$' inner.data
  let sp2 := splitFirstChar '#' sp.1
  match doc_index.lookup (String.mk sp2.1) with
  | none => none
  | some info =>
    let text := match sp.2 with
      | some t => String.mk t
      | none => info.title
    let anchor := match sp2.2 with
      | some a => "#" ++ String.mk a
      | none => ""
    some ("[" ++ text ++ "](" ++ normpath_join rel info.url ++ anchor ++ ")")

/-- The document index of the doc-reference fixture. -/
def fixtureDocIndex : List (String × DocInfo) :=
  [("doc1", ⟨"Title1", "URL1"⟩), ("do/c2", ⟨"Two words", "somewhere/else"⟩)]

/-- Concatenation of a list of string parts (Python's ''.join(parts)). -/
def joinAll : List String → String
  | [] => ""
  | s :: rest => s ++ joinAll rest

/-- Newline-separated concatenation of string parts ('\n'.join(parts)). -/
def joinWithNL : List String → String
  | [] => ""
  | [s] => s
  | s :: s' :: rest => s ++ "\n" ++ joinWithNL (s' :: rest)

/-- Sorting a list by a string key (Python's sorted; the sort key of the
member records is their first field, the short name). -/
def sortByKey {α : Type} (key : α → String) (l : List α) : List α :=
  letI : DecidableRel (fun a b : α => key a ≤ key b) :=
    fun a b => inferInstanceAs (Decidable (key a ≤ key b))
  List.insertionSort (fun a b => key a ≤ key b) l

/-- A detail section as the renderer consumes it (string fields). -/
structure FunctionDetail where
  keyword : String
  header : String
  items : List (String × String)
deriving DecidableEq, Repr

/-- One detail section of `_build_function_details`: the parts list
['#### ' + keyword + ':\n\n', header] + the item bullets, joined. -/
def detail_md (detail : FunctionDetail) : String :=
  joinAll (["#### " ++ detail.keyword ++ ":\n\n", detail.header]
    ++ detail.items.map (fun kv => "* <b>`" ++ kv.1 ++ "`</b>:" ++ kv.2))

/-- `_build_function_details` of pretty_docs.py: each detail section
rendered to a part, the parts joined by newlines. -/
def build_function_details (function_details : List FunctionDetail) : String :=
  joinWithNL (function_details.map detail_md)

/-- Value of a key in a compatibility mapping (modelled as an association
list with distinct keys, Python's dict). -/
def compat_val (c : List (String × String)) (k : String) : String :=
  (c.lookup k).getD ""

/-- `_build_compatibility` of pretty_docs.py: the mapping's keys sorted,
each key emitted as '\n\n#### <key> compatibility\n<value>\n'. -/
def build_compatibility (compatibility : List (String × String)) : String :=
  joinAll ((sortByKey (fun k => k) (compatibility.map Prod.fst)).map
    (fun key => "\n\n#### " ++ key ++ " compatibility\n" ++ compat_val compatibility key ++ "\n"))

/-- The structured docstring a page or member carries (parser output as
pretty_docs.py reads it: `doc.docstring`, `doc.brief`,
`doc.function_details`, `doc.compatibility`). -/
structure PageDoc where
  docstring : String
  brief : String
  function_details : List FunctionDetail
  compatibility : List (String × String)
deriving DecidableEq, Repr

/-- A page doc with nothing in it. -/
def emptyDoc : PageDoc := ⟨"", "", [], []⟩

/-- The data of `parser.FunctionPageInfo` that `_build_function_page`
reads. -/
structure FunctionPageInfo where
  full_name : String
  signature : String
  aliases : List String
  defined_in : Option String
  guides : String
  doc : PageDoc
deriving DecidableEq, Repr

/-- A child-class entry of a class page. -/
structure ClassMemberInfo where
  short_name : String
  url : String
deriving DecidableEq, Repr

/-- A property entry of a class page. -/
structure PropertyInfo where
  short_name : String
  doc : PageDoc
deriving DecidableEq, Repr

/-- A method entry of a class page. -/
structure MethodInfo where
  short_name : String
  signature : String
  doc : PageDoc
deriving DecidableEq, Repr

/-- An other-member entry of a class page. -/
structure OtherMemberInfo where
  short_name : String
deriving DecidableEq, Repr

/-- The data of `parser.ClassPageInfo` that `_build_class_page` reads. -/
structure ClassPageInfo where
  full_name : String
  aliases : List String
  defined_in : Option String
  guides : String
  doc : PageDoc
  classes : List ClassMemberInfo
  properties : List PropertyInfo
  methods : List MethodInfo
  other_members : List OtherMemberInfo
deriving DecidableEq, Repr

/-- What `inspect.isclass` / `isfunction` / `ismodule` report for a module
member's object. -/
inductive MemberKind where
  | cls
  | func
  | moduleKind
  | other
deriving DecidableEq, Repr

/-- A member entry of a module page. -/
structure ModuleMemberInfo where
  short_name : String
  url : String
  is_link : Bool
  kind : MemberKind
  brief : String
deriving DecidableEq, Repr

/-- The data of `parser.ModulePageInfo` that `_build_module_page` reads. -/
structure ModulePageInfo where
  full_name : String
  aliases : List String
  defined_in : Option String
  doc : PageDoc
  members : List ModuleMemberInfo
deriving DecidableEq, Repr

/-- `_build_function_page` of pretty_docs.py. -/
def build_function_page (p : FunctionPageInfo) : String :=
  joinAll
    (["# " ++ p.full_name ++ p.signature ++ "\n\n"]
      ++ (if p.aliases.isEmpty then []
          else p.aliases.map (fun name => "### `" ++ name ++ p.signature ++ "`\n") ++ ["\n"])
      ++ (match p.defined_in with
          | some d => ["\n\n", d]
          | none => [])
      ++ [p.guides, p.doc.docstring,
          build_function_details p.doc.function_details,
          build_compatibility p.doc.compatibility])

/-- The anchored heading of a property or other member on a class page. -/
def member_h3 (short_name : String) : String :=
  "<h3 id=\"" ++ short_name ++ "\"><code>" ++ short_name ++ "</code></h3>\n\n"

/-- One sorted property block of a class page (heading, docstring,
details; its compatibility must be empty, see `build_class_page`). -/
def property_block (prop_info : PropertyInfo) : String :=
  member_h3 prop_info.short_name ++ prop_info.doc.docstring
    ++ build_function_details prop_info.doc.function_details ++ "\n\n"

/-- One sorted method block of a class page (anchored heading with the
signature, docstring, details and compatibility). -/
def method_block (method_info : MethodInfo) : String :=
  "<h3 id=\"" ++ method_info.short_name ++ "\"><code>" ++ method_info.short_name
    ++ method_info.signature ++ "</code></h3>\n\n"
    ++ method_info.doc.docstring
    ++ build_function_details method_info.doc.function_details
    ++ build_compatibility method_info.doc.compatibility
    ++ "\n\n"

/-- The Methods section of a class page: nothing when there are no
methods, else the heading and the method blocks sorted by short name. -/
def build_methods_section (methods : List MethodInfo) : String :=
  if methods.isEmpty then ""
  else "## Methods\n\n"
    ++ joinAll ((sortByKey (fun m => m.short_name) methods).map method_block) ++ "\n\n"

/-- The markdown body of a class page (produced when the assertions of
`_build_class_page` hold). -/
def class_page_body (p : ClassPageInfo) : String :=
  joinAll
    (["# " ++ p.full_name ++ "\n\n"]
      ++ (if p.aliases.isEmpty then []
          else p.aliases.map (fun name => "### `class " ++ name ++ "`\n") ++ ["\n"])
      ++ (match p.defined_in with
          | some d => ["\n\n", d]
          | none => [])
      ++ [p.guides, p.doc.docstring,
          build_function_details p.doc.function_details, "\n\n"]
      ++ (if p.classes.isEmpty then []
          else ["## Child Classes\n"]
            ++ sortByKey (fun s => s)
                (p.classes.map (fun ci => "[`class " ++ ci.short_name ++ "`](" ++ ci.url ++ ")\n\n")))
      ++ (if p.properties.isEmpty then []
          else ["## Properties\n\n"]
            ++ (sortByKey (fun pr => pr.short_name) p.properties).map property_block
            ++ ["\n\n"])
      ++ [build_methods_section p.methods]
      ++ (if p.other_members.isEmpty then []
          else ["## Class Members\n\n"]
            ++ (sortByKey (fun i => i.short_name) p.other_members).map
                (fun info => member_h3 info.short_name)))

/-- `_build_class_page` of pretty_docs.py. The function asserts that the
class's own docstring and every property's docstring carry no
compatibility blocks; a failed assertion is modelled as `none`. -/
def build_class_page (p : ClassPageInfo) : Option String :=
  if p.doc.compatibility.isEmpty then
    if p.properties.all (fun prop_info => prop_info.doc.compatibility.isEmpty) then
      some (class_page_body p)
    else none
  else none

/-- The member-loop of `_build_module_page`, producing the parts list. The
`link_text` local variable of the Python loop is function-scoped: it keeps
the value of the previous iteration, so an is_link member whose object is
neither a class nor a function nor a module reads the previous link text,
and fails with an unbound-variable error (modelled as `none`) only when no
previous iteration assigned it. -/
def module_members_parts : List ModuleMemberInfo → Option String → Option (List String)
  | [], _ => some []
  | m :: ms, link_text =>
    if !m.is_link then
      (module_members_parts ms link_text).map
        (fun rest => ("Constant " ++ m.short_name) :: "\n\n" :: rest)
    else
      let lt? : Option (String × String) :=
        match m.kind with
        | .cls => some ("class " ++ m.short_name, "")
        | .func => some (m.short_name ++ "(...)", "")
        | .moduleKind => some (m.short_name, " module")
        | .other => link_text.map (fun t => (t, ""))
      match lt? with
      | none => none
      | some (lt, sfx0) =>
        let sfx := if m.brief ≠ "" then sfx0 ++ ": " ++ m.brief else sfx0
        (module_members_parts ms (some lt)).map
          (fun rest => ("[`" ++ lt ++ "`](" ++ m.url ++ ")" ++ sfx) :: "\n\n" :: rest)

/-- The parts of a module page that precede the member lines. -/
def module_page_head (p : ModulePageInfo) : List String :=
  ["# Module: " ++ p.full_name ++ "\n\n"]
    ++ (if p.aliases.isEmpty then []
        else p.aliases.map (fun name => "### Module `" ++ name ++ "`\n") ++ ["\n"])
    ++ (match p.defined_in with
        | some d => ["\n\n", d]
        | none => [])
    ++ [p.doc.docstring, "\n\n", "## Members\n\n"]

/-- `_build_module_page` of pretty_docs.py: the head parts, the member
lines (each followed by a blank separator), the final separator popped
when there is at least one member. -/
def build_module_page (p : ModulePageInfo) : Option String :=
  (module_members_parts p.members none).map
    (fun mparts =>
      let parts := module_page_head p ++ mparts
      joinAll (if p.members.isEmpty then parts else parts.dropLast))

/-- A page-info value as `build_md_page` classifies it: the three page
classes of the parser, or any other object. -/
inductive PageInfo where
  | function (info : FunctionPageInfo)
  | cls (info : ClassPageInfo)
  | module (info : ModulePageInfo)
  | other
deriving DecidableEq, Repr

/-- The ways `build_md_page` can raise: the explicit ValueError for an
unrecognized page-info class, the `assert` in the class renderer, and the
unbound `link_text` NameError in the module renderer. -/
inductive RenderErr where
  | valueError
  | assertionError
  | nameError
deriving DecidableEq, Repr

/-- `build_md_page` of pretty_docs.py. -/
def build_md_page : PageInfo → Except RenderErr String
  | .function f => .ok (build_function_page f)
  | .cls c =>
    match build_class_page c with
    | some s => .ok s
    | none => .error .assertionError
  | .module m =>
    match build_module_page m with
    | some s => .ok s
    | none => .error .nameError
  | .other => .error .valueError

/-- A detail-section bullet as the claim words it:
'* **<name>**:<description>'. -/
def bullet_claimed (kv : String × String) : String :=
  "* **" ++ kv.1 ++ "**:" ++ kv.2

/-- One detail section as the claim words it: the '#### <Keyword>:'
heading, the header text, then one bullet per item. -/
def detail_md_claimed (d : FunctionDetail) : String :=
  "#### " ++ d.keyword ++ ":\n\n" ++ d.header ++ joinAll (d.items.map bullet_claimed)

/-- The details renderer as the claim words it (sections separated by a
newline). -/
def details_spec_claimed : List FunctionDetail → String
  | [] => ""
  | [d] => detail_md_claimed d
  | d :: d' :: ds => detail_md_claimed d ++ "\n" ++ details_spec_claimed (d' :: ds)

/-- One detail section with the bullet form the code actually emits:
'* <b>`<name>`</b>:<description>'. -/
def detail_md_amended (d : FunctionDetail) : String :=
  "#### " ++ d.keyword ++ ":\n\n" ++ d.header
    ++ joinAll (d.items.map (fun kv => "* <b>`" ++ kv.1 ++ "`</b>:" ++ kv.2))

/-- The details renderer with the amended bullet form. -/
def details_spec_amended : List FunctionDetail → String
  | [] => ""
  | [d] => detail_md_amended d
  | d :: d' :: ds => detail_md_amended d ++ "\n" ++ details_spec_amended (d' :: ds)

/-- The compatibility renderer as the claim words it: the blocks sorted
alphabetically by target name, each a '#### <target> compatibility'
heading followed by the block's text; an empty mapping renders to
nothing. -/
def compat_spec (c : List (String × String)) : String :=
  joinAll ((sortByKey (fun kv : String × String => kv.1) c).map
    (fun kv => "\n\n#### " ++ kv.1 ++ " compatibility\n" ++ kv.2 ++ "\n"))

/-- The link text of a classified module member, as the claim words it
(classes as 'class <name>', functions as '<name>(...)', modules as the
bare name). -/
def link_text_spec (m : ModuleMemberInfo) : String :=
  match m.kind with
  | .cls => "class " ++ m.short_name
  | .func => m.short_name ++ "(...)"
  | .moduleKind => m.short_name
  | .other => ""

/-- The suffix of a classified module member's line (' module' for
submodules, plus ': <brief>' when a brief docstring is present). -/
def suffix_spec (m : ModuleMemberInfo) : String :=
  (match m.kind with
   | .moduleKind => " module"
   | _ => "")
    ++ (if m.brief ≠ "" then ": " ++ m.brief else "")

/-- One module-member line as the claim words it: a link for linkable
members, 'Constant <name>' for the rest. -/
def member_line (m : ModuleMemberInfo) : String :=
  if m.is_link then
    "[`" ++ link_text_spec m ++ "`](" ++ m.url ++ ")" ++ suffix_spec m
  else
    "Constant " ++ m.short_name

/-- The member lines of a module page, blank-line separated, with no
trailing separator. -/
def members_spec : List ModuleMemberInfo → String
  | [] => ""
  | [m] => member_line m
  | m :: m' :: ms => member_line m ++ "\n\n" ++ members_spec (m' :: ms)

/-- The module page as the amended claim describes it: the head parts,
then the member lines in original order. -/
def module_page_spec (p : ModulePageInfo) : String :=
  joinAll (module_page_head p) ++ members_spec p.members

/-- True when the first is_link member of the list is of a kind for which
the member loop assigns no link text: exactly then the loop reads the
unbound `link_text` variable. -/
def first_link_unassigned : List ModuleMemberInfo → Bool
  | [] => false
  | m :: ms =>
    if m.is_link then
      match m.kind with
      | .other => true
      | _ => false
    else first_link_unassigned ms

/-- A module member the loop classifies: not linkable, or a class, a
function or a module. -/
def memberClassified (m : ModuleMemberInfo) : Bool :=
  !m.is_link ||
    (match m.kind with
     | .other => false
     | _ => true)

/-- The concrete detail section on which the claimed and the actual bullet
forms differ. -/
def c5_detail : FunctionDetail := ⟨"Args", "", [("x", " d\n")]⟩

/-- A compatibility mapping whose keys arrive out of alphabetical order. -/
def c6_pairs : List (String × String) := [("b", "tb"), ("a", "ta")]

/-- A module page whose two class members arrive out of alphabetical
order: the rendered Members section must keep that order. -/
def c7_module : ModulePageInfo :=
  ⟨"M", [], none, emptyDoc,
    [⟨"b", "ub", true, .cls, ""⟩, ⟨"a", "ua", true, .cls, ""⟩]⟩

/-- A class page whose own docstring carries a compatibility block: the
class renderer's assertion fails on it. -/
def c8_bad_class : ClassPageInfo :=
  ⟨"C", [], none, "", ⟨"", "", [], [("numpy", "x")]⟩, [], [], [], []⟩

/-- A module page whose second member is linkable but neither class nor
function nor module: the loop silently reuses the previous link text. -/
def c10_page : ModulePageInfo :=
  ⟨"M", [], none, emptyDoc,
    [⟨"A", "ua", true, .cls, ""⟩, ⟨"B", "ub", true, .other, ""⟩]⟩

/-- The parts the member loop of the module renderer produces when every
member is classified: each member's line followed by a blank separator. -/
def mparts_list : List ModuleMemberInfo → List String
  | [] => []
  | m :: ms => member_line m :: "\n\n" :: mparts_list ms

/-! ### Theorems -/

theorem itemsJoin_append (a b : List (Str × Str)) :
    itemsJoin (a ++ b) = itemsJoin a ++ itemsJoin b := by
  simp [itemsJoin]

theorem detailsJoin_append (a b : List ParsedDetail) :
    detailsJoin (a ++ b) = detailsJoin a ++ detailsJoin b := by
  simp [detailsJoin]

theorem headerKeyword_eq {l kw : Str} (h : headerKeyword? l = some kw) :
    l = kw ++ [':'] := by
  have hsplit := List.takeWhile_append_dropWhile (p := Char.isAlpha) (l := l)
  unfold headerKeyword? at h
  split at h
  next c tl heq1 heq2 =>
    split at h
    · cases h
      rw [heq1, heq2] at hsplit
      exact hsplit.symm
    · cases h
  next => cases h

theorem parseItemLine_eq {l : Str} {p : Str × Str} (h : parseItemLine l = some p) :
    l = ' ' :: ' ' :: (p.1 ++ ':' :: p.2) := by
  cases l with
  | nil => simp [parseItemLine] at h
  | cons c1 t =>
    cases t with
    | nil => simp [parseItemLine] at h
    | cons c2 rest =>
      by_cases hsp : c1 = ' ' ∧ c2 = ' '
      case neg => simp [parseItemLine, hsp] at h
      case pos =>
        obtain ⟨h1, h2⟩ := hsp
        subst h1; subst h2
        have hsplit := List.takeWhile_append_dropWhile (p := isNameChar) (l := rest)
        simp only [parseItemLine, and_self, if_true] at h
        split at h
        next c tl r heq1 heq2 =>
          cases h
          rw [heq1, heq2] at hsplit
          rw [← hsplit]
        next => cases h

theorem detailStr_closeSection (cs : CurSection) :
    detailStr (closeSection cs) = curJoin cs := by
  cases cs with
  | mk kw hd ip =>
    cases ip with
    | none => simp [detailStr, closeSection, curJoin, itemsJoin]
    | some ip' => simp [detailStr, closeSection, curJoin, itemsJoin_append, itemsJoin]

theorem pfdFinalize_join (st : PSt) :
    (pfdFinalize st).1 ++ detailsJoin (pfdFinalize st).2 = stateJoin st := by
  cases st with
  | mk rem done cur =>
    cases cur with
    | none => simp [pfdFinalize, stateJoin, detailsJoin]
    | some cs =>
      simp [pfdFinalize, stateJoin, detailsJoin_append, detailsJoin, detailStr_closeSection]

theorem pfdStep_header {l kw : Str} (st : PSt) (hh : headerKeyword? l = some kw) :
    pfdStep st l
      = ⟨st.rem, st.done ++ st.cur.elim [] (fun cs => [closeSection cs]), some ⟨kw, [], none⟩⟩ := by
  simp [pfdStep, hh]

theorem pfdStep_rem {l : Str} (st : PSt) (hh : headerKeyword? l = none) (hc : st.cur = none) :
    pfdStep st l = ⟨st.rem ++ l ++ ['\n'], st.done, none⟩ := by
  simp [pfdStep, hh, hc]

theorem pfdStep_item {l : Str} {cs : CurSection} {n r : Str} (st : PSt)
    (hh : headerKeyword? l = none) (hc : st.cur = some cs)
    (hi : parseItemLine l = some (n, r)) :
    pfdStep st l
      = ⟨st.rem, st.done,
          some ⟨cs.kw, cs.hd,
            some ⟨cs.itemsPart.elim [] (fun ip => ip.done ++ [(ip.name, ip.desc)]), n, r ++ ['\n']⟩⟩⟩ := by
  simp [pfdStep, hh, hc, hi]

theorem pfdStep_hd {l : Str} {cs : CurSection} (st : PSt)
    (hh : headerKeyword? l = none) (hc : st.cur = some cs)
    (hi : parseItemLine l = none) (hip : cs.itemsPart = none) :
    pfdStep st l = ⟨st.rem, st.done, some ⟨cs.kw, cs.hd ++ l ++ ['\n'], none⟩⟩ := by
  simp [pfdStep, hh, hc, hi, hip]

theorem pfdStep_desc {l : Str} {cs : CurSection} {ip : ItemsPart} (st : PSt)
    (hh : headerKeyword? l = none) (hc : st.cur = some cs)
    (hi : parseItemLine l = none) (hip : cs.itemsPart = some ip) :
    pfdStep st l
      = ⟨st.rem, st.done, some ⟨cs.kw, cs.hd, some ⟨ip.done, ip.name, ip.desc ++ l ++ ['\n']⟩⟩⟩ := by
  simp [pfdStep, hh, hc, hi, hip]

theorem pfdStep_inv (st : PSt) (l : Str) (hinv : st.cur = none → st.done = []) :
    (pfdStep st l).cur = none → (pfdStep st l).done = [] := by
  cases hh : headerKeyword? l with
  | some kw => rw [pfdStep_header st hh]; intro hc; cases hc
  | none =>
    cases hc : st.cur with
    | none => rw [pfdStep_rem st hh hc]; intro _; exact hinv hc
    | some cs =>
      cases hi : parseItemLine l with
      | some p =>
        obtain ⟨n, r⟩ := p
        rw [pfdStep_item st hh hc hi]
        intro h; cases h
      | none =>
        cases hip : cs.itemsPart with
        | none => rw [pfdStep_hd st hh hc hi hip]; intro h; cases h
        | some ip => rw [pfdStep_desc st hh hc hi hip]; intro h; cases h

theorem stateJoin_step (st : PSt) (l : Str) (hinv : st.cur = none → st.done = []) :
    stateJoin (pfdStep st l) = stateJoin st ++ (l ++ ['\n']) := by
  cases hh : headerKeyword? l with
  | some kw =>
    have hl : l = kw ++ [':'] := headerKeyword_eq hh
    rw [pfdStep_header st hh]
    cases hc : st.cur with
    | none =>
      have hd : st.done = [] := hinv hc
      simp [stateJoin, hc, hd, detailsJoin, curJoin, hl]
    | some cs =>
      simp [stateJoin, hc, detailsJoin_append, detailsJoin, detailStr_closeSection, curJoin, hl]
  | none =>
    cases hc : st.cur with
    | none =>
      rw [pfdStep_rem st hh hc]
      simp [stateJoin, hc, hinv hc, detailsJoin]
    | some cs =>
      cases hi : parseItemLine l with
      | some p =>
        obtain ⟨n, r⟩ := p
        have hl : l = ' ' :: ' ' :: (n ++ ':' :: r) := parseItemLine_eq hi
        rw [pfdStep_item st hh hc hi]
        cases hip : cs.itemsPart with
        | none => simp [stateJoin, hc, curJoin, hip, hl, itemBlock, itemsJoin]
        | some ip =>
          simp [stateJoin, hc, curJoin, hip, hl, itemBlock, itemsJoin_append, itemsJoin]
      | none =>
        cases hip : cs.itemsPart with
        | none =>
          rw [pfdStep_hd st hh hc hi hip]
          simp [stateJoin, hc, curJoin, hip]
        | some ip =>
          rw [pfdStep_desc st hh hc hi hip]
          simp [stateJoin, hc, curJoin, hip, itemBlock]

theorem pfd_loop_join :
    ∀ (ls : List Str) (st : PSt), (st.cur = none → st.done = []) →
      (pfdFinalize (ls.foldl pfdStep st)).1 ++ detailsJoin (pfdFinalize (ls.foldl pfdStep st)).2
        = stateJoin st ++ joinLines ls := by
  intro ls
  induction ls with
  | nil => intro st _; simp [joinLines, pfdFinalize_join]
  | cons l ls ih =>
    intro st hinv
    have h1 := ih (pfdStep st l) (pfdStep_inv st l hinv)
    simp only [List.foldl_cons, h1, stateJoin_step st l hinv, joinLines]
    simp [joinLines]

/-- C1. Round-trip law of the docstring structurer: for every docstring
(given as its list of lines; no compatibility blocks exist at this stage),
the remainder text concatenated with the serialized form of each extracted
detail, in original order, reproduces the docstring exactly; and the
Args/Returns seed fixture splits into exactly 2 details, the first of which
has 2 items whose second, named "name", has description
" A name for the operation (optional)" followed by two newlines. -/
theorem C1_docstring_roundtrip :
    (∀ lines : List Str,
      (parse_function_details lines).1 ++ detailsJoin (parse_function_details lines).2
        = joinLines lines)
    ∧ (parse_function_details reluDocLines).2.length = 2
    ∧ ((parse_function_details reluDocLines).2.getD 0 ⟨[], [], []⟩).items.length = 2
    ∧ ((parse_function_details reluDocLines).2.getD 0 ⟨[], [], []⟩).items.getD 1 ([], [])
        = ("name".data, " A name for the operation (optional)\n\n".data) := by
  refine ⟨?_, by decide, by decide, by decide⟩
  intro lines
  have h := pfd_loop_join lines ⟨[], [], none⟩ (fun _ => rfl)
  simpa [parse_function_details, stateJoin, detailsJoin] using h

/-- C2. The ArgSpec resolver on the declared signature
(arg1, arg2, kwarg1=1, kwarg2=2): binding keyword kwarg1 yields names
[arg1, arg2, kwarg2] with defaults (2,); binding keyword kwarg2 yields
[arg1, arg2, kwarg1] with defaults (1,); binding 3 positional values
yields [kwarg2] with defaults (2,); keyword bindings remove the named
parameter and its default wherever it occurs (arg2 bound by keyword, and
cumulative keyword bindings), and positional bindings consume names from
the front keeping the defaults tail-aligned. -/
theorem C2_argspec_partial_binding :
    get_arg_spec partialBase 0 ["kwarg1"] = ⟨["arg1", "arg2", "kwarg2"], none, none, [2]⟩
    ∧ get_arg_spec partialBase 0 ["kwarg2"] = ⟨["arg1", "arg2", "kwarg1"], none, none, [1]⟩
    ∧ get_arg_spec partialBase 3 [] = ⟨["kwarg2"], none, none, [2]⟩
    ∧ get_arg_spec partialBase 1 [] = ⟨["arg2", "kwarg1", "kwarg2"], none, none, [1, 2]⟩
    ∧ get_arg_spec partialBase 0 ["arg2", "kwarg1", "kwarg2"] = ⟨["arg1"], none, none, []⟩
    ∧ get_arg_spec ⟨["arg1", "arg2"], some "my_args", some "my_kwargs", []⟩ 2 []
        = ⟨[], some "my_args", some "my_kwargs", []⟩ := by
  exact ⟨by decide, by decide, by decide, by decide, by decide, by decide⟩

/-- C3. Resolution of symbol reference tokens: a directly indexed name
links to its own page under the relative root with the backtick-quoted
original name as display text; a name whose parent alone is indexed links
to the parent's page with a #<lastComponent> anchor; a name aliased by the
duplicate map links to its canonical target's page while displaying the
original name; and nothing resolves against an empty index. -/
theorem C3_symbol_reference_resolution :
    one_ref [] ["tf.reference"] "tf.reference" "../.."
        = some "[`tf.reference`](../../tf/reference.md)"
    ∧ one_ref [] ["tf.reference"] "tf.reference.foo" "../.."
        = some "[`tf.reference.foo`](../../tf/reference.md#foo)"
    ∧ one_ref [("tf.third", "tf.fourth")] ["tf.reference", "tf.third", "tf.fourth"]
        "tf.third" "../.." = some "[`tf.third`](../../tf/fourth.md)"
    ∧ (∀ (d : List (String × String)) (ref rel : String), one_ref d [] ref rel = none) := by
  refine ⟨by decide, by decide, by decide, ?_⟩
  intro d ref rel
  simp [one_ref]

/-- C4. Resolution of document reference tokens over
doc_index["doc1"] = (title "Title1", url "URL1") with relative root
"python": a bare reference renders the document title, an anchored
reference appends the anchor to the link target, a custom display text
replaces the title; and nothing resolves against an empty index. -/
theorem C4_doc_reference_resolution :
    resolve_doc_ref fixtureDocIndex "doc1" "python" = some "[Title1](../URL1)"
    ∧ resolve_doc_ref fixtureDocIndex "doc1#abc" "python" = some "[Title1](../URL1#abc)"
    ∧ resolve_doc_ref fixtureDocIndex "doc1$link" "python" = some "[link](../URL1)"
    ∧ (∀ inner rel : String, resolve_doc_ref [] inner rel = none) := by
  refine ⟨by decide, by decide, by decide, ?_⟩
  intro inner rel
  simp [resolve_doc_ref, List.lookup]

theorem joinAll_append (l₁ l₂ : List String) :
    joinAll (l₁ ++ l₂) = joinAll l₁ ++ joinAll l₂ := by
  induction l₁ with
  | nil => simp [joinAll]
  | cons s t ih => simp [joinAll, ih, String.append_assoc]

theorem detail_md_eq_amended (d : FunctionDetail) :
    detail_md d = detail_md_amended d := by
  simp [detail_md, detail_md_amended, joinAll, String.append_assoc]

/-- C5 counterexample: on a one-item Args section the renderer's bullet
'* <b>`x`</b>: d' differs from the claimed bullet '* **x**: d'. -/
theorem C5_counterexample :
    build_function_details [c5_detail] ≠ details_spec_claimed [c5_detail] := by
  decide

/-- C5 (amended). The renderer emits each detail section as a
'#### <Keyword>:' heading followed by the section's header text and then
one bullet per item of the form '* <b>`<name>`</b>:<description>'
(HTML-bold backtick-quoted name, not '* **<name>**:'), sections separated
by a newline. -/
theorem C5_details_rendering :
    ∀ ds : List FunctionDetail, build_function_details ds = details_spec_amended ds := by
  intro ds
  induction ds with
  | nil => rfl
  | cons d ds ih =>
    cases ds with
    | nil =>
      simp [build_function_details, joinWithNL, details_spec_amended, detail_md_eq_amended]
    | cons d' ds' =>
      have hstep : build_function_details (d :: d' :: ds')
          = detail_md d ++ "\n" ++ build_function_details (d' :: ds') := by
        simp [build_function_details, joinWithNL, String.append_assoc]
      rw [hstep, ih]
      simp [details_spec_amended, detail_md_eq_amended, String.append_assoc]

theorem lookup_eq_of_mem_nodup :
    ∀ {c : List (String × String)}, ((c.map Prod.fst).Nodup) →
      ∀ {kv : String × String}, kv ∈ c → c.lookup kv.1 = some kv.2 := by
  intro c
  induction c with
  | nil => intro _ kv hm; simp at hm
  | cons hd t ih =>
    intro hn kv hm
    obtain ⟨a, b⟩ := hd
    have hn' := List.nodup_cons.mp (show (a :: t.map Prod.fst).Nodup from hn)
    cases List.mem_cons.mp hm with
    | inl he =>
      subst he
      simp [List.lookup]
    | inr ht =>
      have hne : kv.1 ≠ a := by
        intro he
        exact hn'.1 (he ▸ List.mem_map_of_mem Prod.fst ht)
      have hbeq : (kv.1 == a) = false := beq_eq_false_iff_ne.mpr hne
      simp [List.lookup, hbeq]
      exact ih hn'.2 ht

theorem mem_sortByKey {α : Type} (key : α → String) (l : List α) (x : α) :
    x ∈ sortByKey key l ↔ x ∈ l := by
  unfold sortByKey
  exact List.mem_insertionSort _

theorem sortPairs_map_fst (c : List (String × String)) :
    (sortByKey (fun kv : String × String => kv.1) c).map Prod.fst
      = sortByKey (fun k => k) (c.map Prod.fst) := by
  unfold sortByKey
  exact List.map_insertionSort _ _ _ _ (fun a _ b _ => Iff.rfl)

/-- C6. The compatibility renderer emits exactly the blocks of the mapping
sorted alphabetically by target name, each as a '#### <target>
compatibility' heading followed by the block's text (and an empty mapping
renders to nothing, the empty instance of the right-hand side). -/
theorem C6_compatibility_sorted :
    ∀ c : List (String × String), (c.map Prod.fst).Nodup →
      build_compatibility c = compat_spec c := by
  intro c hn
  unfold build_compatibility compat_spec
  rw [← sortPairs_map_fst, List.map_map]
  congr 1
  apply List.map_congr_left
  intro kv hkv
  have hm : kv ∈ c := (mem_sortByKey _ c kv).mp hkv
  simp [Function.comp, compat_val, lookup_eq_of_mem_nodup hn hm]

/-- C6 witness: the two-block mapping given out of alphabetical order. -/
theorem C6_compatibility_sorted_witness :
    build_compatibility c6_pairs = compat_spec c6_pairs :=
  C6_compatibility_sorted c6_pairs (by decide)

theorem sorted_unique_by_key {α : Type} (key : α → String) :
    ∀ (l₁ l₂ : List α), l₁.Perm l₂
      → l₁.Sorted (fun a b => key a ≤ key b) → l₂.Sorted (fun a b => key a ≤ key b)
      → (l₁.map key).Nodup → l₁ = l₂ := by
  intro l₁
  induction l₁ with
  | nil =>
    intro l₂ hp _ _ _
    exact (hp.symm.eq_nil).symm
  | cons a t ih =>
    intro l₂ hp hs₁ hs₂ hn
    cases l₂ with
    | nil => cases hp.eq_nil
    | cons b t₂ =>
      by_cases hab : a = b
      · subst hab
        have ht : t.Perm t₂ := hp.cons_inv
        have htl := ih t₂ ht hs₁.of_cons hs₂.of_cons
          (List.nodup_cons.mp (show (key a :: t.map key).Nodup from hn)).2
        rw [htl]
      · exfalso
        have hamem : a ∈ b :: t₂ := hp.subset (List.mem_cons_self a t)
        have hbmem : b ∈ a :: t := hp.symm.subset (List.mem_cons_self b t₂)
        have ha2 : a ∈ t₂ := by
          cases List.mem_cons.mp hamem with
          | inl h => exact absurd h hab
          | inr h => exact h
        have hb2 : b ∈ t := by
          cases List.mem_cons.mp hbmem with
          | inl h => exact absurd h.symm hab
          | inr h => exact h
        have h1 : key a ≤ key b := (List.pairwise_cons.mp hs₁).1 b hb2
        have h2 : key b ≤ key a := (List.pairwise_cons.mp hs₂).1 a ha2
        have hkey : key a = key b := le_antisymm h1 h2
        have hnin : key a ∉ t.map key :=
          (List.nodup_cons.mp (show (key a :: t.map key).Nodup from hn)).1
        exact hnin (hkey ▸ List.mem_map_of_mem key hb2)

theorem sortByKey_perm {α : Type} (key : α → String) (l : List α) :
    (sortByKey key l).Perm l := by
  unfold sortByKey
  exact List.perm_insertionSort _ _

theorem sortByKey_sorted {α : Type} (key : α → String) (l : List α) :
    (sortByKey key l).Sorted (fun a b => key a ≤ key b) := by
  unfold sortByKey
  letI : IsTotal α (fun a b => key a ≤ key b) := ⟨fun a b => le_total (key a) (key b)⟩
  letI : IsTrans α (fun a b => key a ≤ key b) := ⟨fun a b c h1 h2 => le_trans h1 h2⟩
  exact List.sorted_insertionSort _ _

theorem sortByKey_eq_of_perm {α : Type} (key : α → String) {l₁ l₂ : List α}
    (hp : l₁.Perm l₂) (hn : (l₁.map key).Nodup) :
    sortByKey key l₁ = sortByKey key l₂ := by
  apply sorted_unique_by_key key
  · exact (sortByKey_perm key l₁).trans (hp.trans (sortByKey_perm key l₂).symm)
  · exact sortByKey_sorted key l₁
  · exact sortByKey_sorted key l₂
  · exact (((sortByKey_perm key l₁).map key).nodup_iff).mpr hn

/-- C7. The Methods section of a class page is the same for any two
orders in which the methods were filed (they are sorted by short name at
render time), while the Members section of a module page keeps the
original child order: the fixture module whose members arrive as b, a
renders b's line before a's. -/
theorem C7_class_sorted_module_ordered :
    (∀ ms ms' : List MethodInfo, ms.Perm ms'
        → (ms.map (fun m => m.short_name)).Nodup
        → build_methods_section ms = build_methods_section ms')
    ∧ build_module_page c7_module
        = some "# Module: M\n\n\n\n## Members\n\n[`class b`](ub)\n\n[`class a`](ua)" := by
  constructor
  · intro ms ms' hp hn
    unfold build_methods_section
    have he : ms.isEmpty = ms'.isEmpty := by
      have hlen := hp.length_eq
      cases ms <;> cases ms' <;> simp_all
    rw [he, sortByKey_eq_of_perm (fun m => m.short_name) hp hn]
  · rfl

/-- C9. Rendering a class page succeeds exactly when the class's own
docstring and every property's docstring carry no compatibility blocks;
otherwise the renderer fails its assertion instead of rendering the blocks
(methods' compatibility blocks, rendered inside `method_block`, do not
affect this precondition). -/
theorem C9_class_page_compat_assert :
    ∀ p : ClassPageInfo,
      (build_class_page p).isSome = true
        ↔ (p.doc.compatibility = [] ∧ ∀ pr ∈ p.properties, pr.doc.compatibility = []) := by
  intro p
  unfold build_class_page
  split_ifs with h1 h2
  · simp only [Option.isSome_some, true_iff]
    refine ⟨List.isEmpty_iff.mp h1, ?_⟩
    intro pr hpr
    exact List.isEmpty_iff.mp (List.all_eq_true.mp h2 pr hpr)
  · simp only [Option.isSome_none, Bool.false_eq_true, false_iff, not_and]
    intro _
    intro hall
    apply h2
    apply List.all_eq_true.mpr
    intro pr hpr
    exact List.isEmpty_iff.mpr (hall pr hpr)
  · simp only [Option.isSome_none, Bool.false_eq_true, false_iff, not_and]
    intro hc
    exact absurd (List.isEmpty_iff.mpr hc) h1

theorem mmp_some_of_lt :
    ∀ (ms : List ModuleMemberInfo) (t : String),
      (module_members_parts ms (some t)).isSome = true := by
  intro ms
  induction ms with
  | nil => intro t; rfl
  | cons m ms ih =>
    intro t
    cases hml : m.is_link with
    | false =>
      simp [module_members_parts, hml, Option.isSome_map, ih t]
    | true =>
      cases hk : m.kind with
      | cls => simp [module_members_parts, hml, hk, Option.isSome_map, ih]
      | func => simp [module_members_parts, hml, hk, Option.isSome_map, ih]
      | moduleKind => simp [module_members_parts, hml, hk, Option.isSome_map, ih]
      | other => simp [module_members_parts, hml, hk, Option.isSome_map, ih]

theorem mmp_none_iff :
    ∀ ms : List ModuleMemberInfo,
      (module_members_parts ms none = none) ↔ first_link_unassigned ms = true := by
  intro ms
  induction ms with
  | nil => simp [module_members_parts, first_link_unassigned]
  | cons m ms ih =>
    cases hml : m.is_link with
    | false =>
      simp [module_members_parts, first_link_unassigned, hml, Option.map_eq_none', ih]
    | true =>
      cases hk : m.kind with
      | cls =>
        obtain ⟨parts, hp⟩ :=
          Option.isSome_iff_exists.mp (mmp_some_of_lt ms ("class " ++ m.short_name))
        simp [module_members_parts, first_link_unassigned, hml, hk, hp]
      | func =>
        obtain ⟨parts, hp⟩ :=
          Option.isSome_iff_exists.mp (mmp_some_of_lt ms (m.short_name ++ "(...)"))
        simp [module_members_parts, first_link_unassigned, hml, hk, hp]
      | moduleKind =>
        obtain ⟨parts, hp⟩ :=
          Option.isSome_iff_exists.mp (mmp_some_of_lt ms m.short_name)
        simp [module_members_parts, first_link_unassigned, hml, hk, hp]
      | other =>
        simp [module_members_parts, first_link_unassigned, hml, hk]

theorem mmp_classified :
    ∀ (ms : List ModuleMemberInfo) (lt : Option String),
      ms.all memberClassified = true →
      module_members_parts ms lt = some (mparts_list ms) := by
  intro ms
  induction ms with
  | nil => intro lt _; rfl
  | cons m ms ih =>
    intro lt hall
    rw [List.all_cons, Bool.and_eq_true] at hall
    cases hml : m.is_link with
    | false =>
      simp [module_members_parts, hml, ih lt hall.2, mparts_list, member_line]
    | true =>
      cases hk : m.kind with
      | cls =>
        simp [module_members_parts, hml, hk, ih _ hall.2, mparts_list, member_line,
          link_text_spec, suffix_spec, hml]
      | func =>
        simp [module_members_parts, hml, hk, ih _ hall.2, mparts_list, member_line,
          link_text_spec, suffix_spec, hml]
      | moduleKind =>
        simp [module_members_parts, hml, hk, ih _ hall.2, mparts_list, member_line,
          link_text_spec, suffix_spec, hml]
        split_ifs <;> simp [← String.append_assoc]
      | other =>
        exfalso
        have := hall.1
        simp [memberClassified, hml, hk] at this

theorem joinAll_mparts_dropLast :
    ∀ ms : List ModuleMemberInfo,
      joinAll ((mparts_list ms).dropLast) = members_spec ms := by
  intro ms
  induction ms with
  | nil => rfl
  | cons m ms ih =>
    cases ms with
    | nil => simp [mparts_list, members_spec, joinAll]
    | cons m' ms' =>
      have hcons : mparts_list (m' :: ms') = member_line m' :: "\n\n" :: mparts_list ms' := rfl
      simp only [mparts_list, List.dropLast_cons₂, joinAll] at ih ⊢
      rw [ih]
      simp [members_spec, String.append_assoc]

theorem build_module_page_eq :
    ∀ p : ModulePageInfo, p.members.all memberClassified = true →
      build_module_page p = some (module_page_spec p) := by
  intro p hall
  unfold build_module_page
  rw [mmp_classified p.members none hall]
  simp only [Option.map_some']
  congr 1
  cases hms : p.members with
  | nil =>
    simp [mparts_list, module_page_spec, members_spec, hms]
  | cons m ms =>
    simp only [hms, List.isEmpty_cons]
    rw [if_neg (by simp)]
    rw [List.dropLast_append]
    rw [if_neg (by simp [mparts_list])]
    rw [joinAll_append, joinAll_mparts_dropLast (m :: ms)]
    simp [module_page_spec, hms]

/-- C10 counterexample: the fixture module page has a linkable member of
kind other (member B), yet the renderer does not fail with an
unbound-variable error — it silently reuses the previous member's link
text, rendering B's line as a link titled 'class A'. -/
theorem C10_counterexample :
    c10_page.members.any (fun m => m.is_link && m.kind == MemberKind.other) = true
    ∧ build_module_page c10_page
        = some "# Module: M\n\n\n\n## Members\n\n[`class A`](ua)\n\n[`class A`](ub)" := by
  exact ⟨by decide, rfl⟩

/-- C10 (amended). Rendering a module page fails with the unbound
`link_text` error exactly when the first linkable member is neither a
class nor a function nor a module (a later such member silently reuses the
previous linkable member's link text); when every linkable member is a
class, a function or a module, every member line is produced: class
members with link text 'class <name>', functions with '<name>(...)',
modules with a ' module' suffix, and non-linkable members as
'Constant <name>'. -/
theorem C10_module_member_rendering :
    (∀ p : ModulePageInfo,
        (build_module_page p = none ↔ first_link_unassigned p.members = true))
    ∧ (∀ p : ModulePageInfo, p.members.all memberClassified = true
        → build_module_page p = some (module_page_spec p)) := by
  constructor
  · intro p
    unfold build_module_page
    rw [Option.map_eq_none']
    exact mmp_none_iff p.members
  · exact build_module_page_eq

/-- C8 counterexample: a class page whose docstring carries a
compatibility block is a class-kind page-info on which `build_md_page`
raises the class renderer's assertion instead of returning a rendered
page. -/
theorem C8_counterexample :
    build_md_page (PageInfo.cls c8_bad_class) = Except.error RenderErr.assertionError := by
  rfl

/-- C8 (amended). `build_md_page` raises ValueError exactly for page-info
values of a kind other than function, class or module (no other kind is
silently rendered); it returns a rendered page for every function page,
and for class and module pages that satisfy the respective renderer's
preconditions (no class or property compatibility blocks; the first
linkable module member is classified). -/
theorem C8_page_kind_dispatch :
    (∀ p : PageInfo, build_md_page p = Except.error RenderErr.valueError ↔ p = PageInfo.other)
    ∧ (∀ f, build_md_page (PageInfo.function f) = Except.ok (build_function_page f))
    ∧ (∀ c : ClassPageInfo, c.doc.compatibility = []
        → (∀ pr ∈ c.properties, pr.doc.compatibility = [])
        → build_md_page (PageInfo.cls c) = Except.ok (class_page_body c))
    ∧ (∀ m : ModulePageInfo, first_link_unassigned m.members = false
        → ∃ s, build_md_page (PageInfo.module m) = Except.ok s) := by
  refine ⟨?_, fun f => rfl, ?_, ?_⟩
  · intro p
    cases p with
    | function f => simp [build_md_page]
    | cls c =>
      cases hc : build_class_page c <;> simp [build_md_page, hc]
    | module m =>
      cases hm : build_module_page m <;> simp [build_md_page, hm]
    | other => simp [build_md_page]
  · intro c h1 h2
    have hA : c.doc.compatibility.isEmpty = true := List.isEmpty_iff.mpr h1
    have hB : c.properties.all (fun pr => pr.doc.compatibility.isEmpty) = true :=
      List.all_eq_true.mpr (fun pr hpr => List.isEmpty_iff.mpr (h2 pr hpr))
    simp [build_md_page, build_class_page, hA, hB]
  · intro m hm
    have hne : build_module_page m ≠ none := by
      rw [Ne, build_module_page, Option.map_eq_none', mmp_none_iff]
      simp [hm]
    obtain ⟨s, hs⟩ := Option.ne_none_iff_exists'.mp hne
    exact ⟨s, by simp [build_md_page, hs]⟩
